import Mathlib

/-!
Verification of the ted terminal editor core (src/main.rs) against its
natural-language specification.

The document is modelled as a flat list of characters, mirroring the ropey
Rope used by the source: len_lines counts line breaks plus one, line i is
the i-th break-terminated segment (including its terminating break, if any),
and insert/remove work on absolute character offsets.
-/

set_option maxHeartbeats 1000000

namespace Ted

/-- The document buffer: a flat sequence of characters (shallow model of
ropey.Rope, which the source addresses purely by absolute char offsets and
line indices). -/
abbrev Rope := List Char

/-- Number of line breaks in the document (helper for the len_lines model). -/
def countNl : List Char → Nat
  | [] => 0
  | c :: t => (if c = '\n' then 1 else 0) + countNl t

/-- Model of rope.len_lines(): number of line breaks plus one. -/
def ropeLenLines (r : Rope) : Nat := countNl r + 1

/-- Source fn lines(rope): rope.len_lines().saturating_sub(1), the index of
the last line. -/
def lines (r : Rope) : Nat := ropeLenLines r - 1

/-- Model of rope.line(i): the i-th line, including its terminating line
break when present (out-of-range indices yield the empty list; the source
only calls this in range). -/
def ropeLine : Rope → Nat → List Char
  | [], _ => []
  | c :: t, 0 => if c = '\n' then ['\n'] else c :: ropeLine t 0
  | c :: t, i + 1 => if c = '\n' then ropeLine t i else ropeLine t (i + 1)

/-- Source fn columns(line): character count of the line with a trailing
line break excluded. -/
def columns (l : List Char) : Nat :=
  if l.getLast? = some '\n' then l.length - 1 else l.length

/-- Model of rope.line_to_char(i): absolute char offset of the start of
line i. -/
def line_to_char : Rope → Nat → Nat
  | _, 0 => 0
  | [], _ + 1 => 0
  | c :: t, i + 1 => 1 + (if c = '\n' then line_to_char t i else line_to_char t (i + 1))

/-- Source fn end(rope): offset of the end column of the last line. -/
def endPos (r : Rope) : Nat := line_to_char r (lines r) + columns (ropeLine r (lines r))

/-- Model of rope.insert_char(pos, c). -/
def insert_char (r : Rope) (pos : Nat) (c : Char) : Rope :=
  r.take pos ++ c :: r.drop pos

/-- Model of rope.remove(pos..pos + 1). -/
def removeAt (r : Rope) (pos : Nat) : Rope :=
  r.take pos ++ r.drop (pos + 1)

/-- struct Cursor: a logical position; col is a desired column that may
exceed the actual line length. -/
structure Cursor where
  line : Nat
  col : Nat
deriving DecidableEq

/-- enum Movement. -/
inductive Movement where
  | up (n : Nat)
  | down (n : Nat)
  | left (n : Nat)
  | right (n : Nat)
  | docBegin
  | docEnd
  | lineBegin
  | lineEnd
  | goto (line col : Nat)
  | gotoLine (line : Nat)
  | gotoCol (col : Nat)
deriving DecidableEq

/-- Cursor::columns: the column count of the line the cursor is on. -/
def Cursor.columnsAt (cur : Cursor) (r : Rope) : Nat := columns (ropeLine r cur.line)

/-- Cursor::col(rope): the clamped (actual) column. -/
def Cursor.colClamped (cur : Cursor) (r : Rope) : Nat := min cur.col (cur.columnsAt r)

/-- Cursor::pos: absolute char offset of the cursor. -/
def Cursor.pos (cur : Cursor) (r : Rope) : Nat := line_to_char r cur.line + cur.colClamped r

/-- One iteration of the Movement::Left loop body: step one column left,
wrapping to the end of the previous line; at document start the source
breaks out of the loop, which is modelled as the identity (the state is
unchanged there, so iterating the step agrees with the loop). -/
def stepLeft (r : Rope) (cur : Cursor) : Cursor :=
  if 0 < cur.col then { cur with col := cur.col - 1 }
  else if 0 < cur.line then
    let moved : Cursor := { cur with line := cur.line - 1 }
    { moved with col := moved.columnsAt r }
  else cur

/-- One iteration of the Movement::Right loop body (same break convention
as stepLeft). -/
def stepRight (r : Rope) (cur : Cursor) : Cursor :=
  if cur.col < cur.columnsAt r then { cur with col := cur.col + 1 }
  else if cur.line < lines r then { line := cur.line + 1, col := 0 }
  else cur

/-- Cursor::apply. LineBegin and LineEnd call apply(Up(1)) and
apply(Down(1)) in the source; those one-line movements are inlined here. -/
def Cursor.apply (cur : Cursor) (r : Rope) (m : Movement) : Cursor :=
  match m with
  | .up n => { cur with line := cur.line - n }
  | .down n => { cur with line := if lines r ≤ cur.line + n then lines r else cur.line + n }
  | .left n => (stepLeft r)^[n] { cur with col := cur.colClamped r }
  | .right n => (stepRight r)^[n] { cur with col := cur.colClamped r }
  | .docBegin => { line := 0, col := 0 }
  | .docEnd =>
      let moved : Cursor := { cur with line := lines r }
      { moved with col := moved.columnsAt r }
  | .lineBegin =>
      if cur.col = 0 then { cur with line := cur.line - 1 }
      else { cur with col := 0 }
  | .lineEnd =>
      let moved : Cursor :=
        if cur.columnsAt r ≤ cur.col then
          { cur with line := if lines r ≤ cur.line + 1 then lines r else cur.line + 1 }
        else cur
      { moved with col := moved.columnsAt r }
  | .goto l c =>
      let moved : Cursor := { cur with line := min l (lines r) }
      { moved with col := min c (moved.columnsAt r) }
  | .gotoLine l => { cur with line := min l (lines r) }
  | .gotoCol c => { cur with col := min c (cur.columnsAt r) }

/-- struct Editor. -/
structure Editor where
  rope : Rope
  cursors : List Cursor
deriving DecidableEq

/-- Editor::line: the primary cursor line (0 when the set is empty). -/
def Editor.line (e : Editor) : Nat :=
  match e.cursors.head? with
  | some cursor => cursor.line
  | none => 0

/-- Editor::col: the primary cursor clamped column (0 when the set is
empty). -/
def Editor.col (e : Editor) : Nat :=
  match e.cursors.head? with
  | some cursor => cursor.colClamped e.rope
  | none => 0

/-- The subset of termion key events the source dispatches on; other
covers every event that falls through to the final wildcard arm. -/
inductive Key where
  | up
  | down
  | left
  | right
  | home
  | endKey
  | pageUp
  | pageDown
  | char (c : Char)
  | ctrl (c : Char)
  | alt (c : Char)
  | backspace
  | delete
  | esc
  | other
deriving DecidableEq

/-- The Key::Char arm of Editor::key: for each cursor in order, insert the
character at the cursor offset in the current rope, then advance that
cursor by Right(1) on the updated rope. -/
def insertAll (c : Char) : List Cursor → Rope → Rope × List Cursor
  | [], r => (r, [])
  | cur :: rest, r =>
      let r1 := insert_char r (cur.pos r) c
      let cur1 := cur.apply r1 (.right 1)
      let rc := insertAll c rest r1
      (rc.1, cur1 :: rc.2)

/-- The Key::Backspace arm of Editor::key: for each cursor with a positive
offset, move Left(1) and remove one character at the new offset. -/
def backspaceAll : List Cursor → Rope → Rope × List Cursor
  | [], r => (r, [])
  | cur :: rest, r =>
      if 0 < cur.pos r then
        let cur1 := cur.apply r (.left 1)
        let r1 := removeAt r (cur1.pos r)
        let rc := backspaceAll rest r1
        (rc.1, cur1 :: rc.2)
      else
        let rc := backspaceAll rest r
        (rc.1, cur :: rc.2)

/-- The Key::Delete arm of Editor::key: for each cursor before document
end, re-clamp its column with GotoCol and remove one character at its
offset. -/
def deleteAll : List Cursor → Rope → Rope × List Cursor
  | [], r => (r, [])
  | cur :: rest, r =>
      if cur.pos r < endPos r then
        let cur1 := cur.apply r (.gotoCol (cur.colClamped r))
        let r1 := removeAt r (cur1.pos r)
        let rc := deleteAll rest r1
        (rc.1, cur1 :: rc.2)
      else
        let rc := deleteAll rest r
        (rc.1, cur :: rc.2)

/-- Editor::key: dispatch one key event, returning the updated editor and
the boolean the source returns from the corresponding match arm. -/
def Editor.key (e : Editor) (k : Key) (height : Nat) : Editor × Bool :=
  match k with
  | .up => ({ e with cursors := e.cursors.map (fun c => c.apply e.rope (.up 1)) }, false)
  | .down => ({ e with cursors := e.cursors.map (fun c => c.apply e.rope (.down 1)) }, false)
  | .left => ({ e with cursors := e.cursors.map (fun c => c.apply e.rope (.left 1)) }, false)
  | .right => ({ e with cursors := e.cursors.map (fun c => c.apply e.rope (.right 1)) }, false)
  | .home => ({ e with cursors := e.cursors.map (fun c => c.apply e.rope .docBegin) }, false)
  | .endKey => ({ e with cursors := e.cursors.map (fun c => c.apply e.rope .docEnd) }, false)
  | .pageUp => ({ e with cursors := e.cursors.map (fun c => c.apply e.rope (.up height)) }, false)
  | .pageDown => ({ e with cursors := e.cursors.map (fun c => c.apply e.rope (.down height)) }, false)
  | .ctrl c =>
      if c = 'a' then ({ e with cursors := e.cursors.map (fun cu => cu.apply e.rope .lineBegin) }, false)
      else if c = 'e' then ({ e with cursors := e.cursors.map (fun cu => cu.apply e.rope .lineEnd) }, false)
      else (e, false)
  | .char c =>
      let rc := insertAll c e.cursors e.rope
      ({ rope := rc.1, cursors := rc.2 }, true)
  | .backspace =>
      let rc := backspaceAll e.cursors e.rope
      ({ rope := rc.1, cursors := rc.2 }, true)
  | .delete =>
      let rc := deleteAll e.cursors e.rope
      ({ rope := rc.1, cursors := rc.2 }, true)
  | .alt c =>
      if c = 'j' then
        (match e.cursors.head? with
          | some cursor =>
              if 0 < cursor.line then
                { e with cursors := Cursor.mk (cursor.line - 1) cursor.col :: e.cursors }
              else e
          | none => e, true)
      else if c = 'k' then
        (match e.cursors.getLast? with
          | some cursor =>
              if cursor.line < lines e.rope then
                { e with cursors := e.cursors ++ [Cursor.mk (cursor.line + 1) cursor.col] }
              else e
          | none => e, true)
      else (e, false)
  | .esc => ({ e with cursors := e.cursors.take 1 }, true)
  | .other => (e, false)

/-- struct TermRenderer viewport state. -/
structure TermRenderer where
  y : Nat
  x : Nat
  height : Nat
  width : Nat
deriving DecidableEq

/-- TermRenderer::update, viewport and repaint decision only: returns the
new viewport origin and whether a full repaint (clear plus redraw of every
visible line) is performed. The source initialises need_update to true, so
the value threaded through the four scroll branches starts at true. -/
def TermRenderer.update (tr : TermRenderer) (e : Editor) (draw : Bool) : TermRenderer × Bool :=
  let needUpdate := true
  let y1 := if e.line < tr.y then e.line else tr.y
  let needUpdate := if e.line < tr.y then true else needUpdate
  let y2 := if y1 + tr.height ≤ e.line then e.line - tr.height + 1 else y1
  let needUpdate := if y1 + tr.height ≤ e.line then true else needUpdate
  let x1 := if e.col < tr.x then e.col else tr.x
  let needUpdate := if e.col < tr.x then true else needUpdate
  let x2 := if x1 + tr.width ≤ e.col then e.col - tr.width + 1 else x1
  let needUpdate := if x1 + tr.width ≤ e.col then true else needUpdate
  ({ tr with y := y2, x := x2 }, draw || needUpdate)

/-- A run of output emitted by Editor::draw: either a span of normal text
or a single inverted (cursor) cell. -/
inductive Seg where
  | normal (s : List Char)
  | inverted (c : Char)
deriving DecidableEq

/-- Model of RopeSlice::slice(a..b): defined exactly when a ≤ b ≤ length
(ropey panics otherwise, which is modelled as none). -/
def slice? (l : List Char) (a b : Nat) : Option (List Char) :=
  if a ≤ b ∧ b ≤ l.length then some ((l.drop a).take (b - a)) else none

/-- Ascending insertion into a sorted list (helper for the Vec::sort model;
on Nat any correct ascending sort produces the same list). -/
def insertAsc (x : Nat) : List Nat → List Nat
  | [] => [x]
  | y :: ys => if x ≤ y then x :: y :: ys else y :: insertAsc x ys

/-- Model of cursors.sort(): ascending sort of the clamped columns. -/
def sortAsc (l : List Nat) : List Nat := l.foldr insertAsc []

/-- The fold inside Editor::draw: walk the sorted cursor columns, emitting
normal text from the previous position to the column, one inverted cell
(the character there, or a blank when at or past line end), and finally
the remaining text; a slice with start past end or past the line length is
a ropey panic, modelled as none. -/
def drawSegs (l : List Char) : Nat → List Nat → Option (List Seg)
  | last, [] => some (if last < l.length then [Seg.normal (l.drop last)] else [])
  | last, column :: rest =>
      match slice? l last column with
      | none => none
      | some s =>
          let invc := if column < l.length then l.getD column ' ' else ' '
          match drawSegs l (column + 1) rest with
          | none => none
          | some segs => some (Seg.normal s :: Seg.inverted invc :: segs)

/-- Editor::draw for one visible line: collect the cursors on that line,
clamp their columns to the line, sort ascending, and emit the alternating
normal and inverted segments. -/
def Editor.draw (e : Editor) (l : List Char) (index : Nat) : Option (List Seg) :=
  drawSegs l 0 (sortAsc ((e.cursors.filter (fun c => c.line = index)).map
    (fun c => min c.col (columns l))))

/-- Outcome of running Editor::save: either the serialized document, or a
process abort with the unwrapped error message. -/
inductive SaveOutcome where
  | saved (contents : List Char)
  | panicked (msg : String)
deriving DecidableEq

/-- Editor::save: File::create, the chunk writes and sync_all are fallible
collaborator calls whose results are inputs here; the source unwraps each
one, so the first error aborts the process. -/
def Editor.save (e : Editor) (create writes sync : Except String Unit) : SaveOutcome :=
  match create with
  | .error msg => .panicked msg
  | .ok _ =>
      match writes with
      | .error msg => .panicked msg
      | .ok _ =>
          match sync with
          | .error msg => .panicked msg
          | .ok _ => .saved e.rope

/-! ## Claim C1: repaint decision -/

/-- C1: the claim says a full repaint happens exactly when the edit flag is
true, the viewport origin changed, or a resize occurred; in the code
need_update is initialised to true, so every call of TermRenderer::update
performs a full repaint, in particular the concrete call with draw false
and an unchanged viewport that the claim says takes the cheap path. -/
theorem C1_always_full_repaint :
    (TermRenderer.update ⟨0, 0, 24, 80⟩ (Editor.mk ['a'] [Cursor.mk 0 0]) false).2 = true ∧
    ∀ (tr : TermRenderer) (e : Editor) (d : Bool), (tr.update e d).2 = true := by
  refine ⟨by decide, fun tr e d => ?_⟩
  simp only [TermRenderer.update]
  split_ifs <;> simp

/-! ## Claim C2: the boolean returned by Editor::key -/

/-- C2 counterexample: with a single cursor on the document "a", Esc
(collapse to primary) returns true although neither the document content
nor the cursor set changes, so the returned boolean is not equivalent to
the document having changed. -/
theorem C2_counterexample :
    ((Editor.mk ['a'] [Cursor.mk 0 0]).key .esc 5).2 = true ∧
    ((Editor.mk ['a'] [Cursor.mk 0 0]).key .esc 5).1 = Editor.mk ['a'] [Cursor.mk 0 0] := by
  decide

/-- C2 amended: the boolean Editor::key returns is a repaint flag, not a
document-changed flag: the six mutation arms (insert character, backspace,
delete, add cursor above, add cursor below, collapse to primary) return
true unconditionally, even when the document content is unchanged, while
the movement arms and unhandled keys return false. -/
theorem C2_repaint_flag : ∀ (e : Editor) (hgt : Nat) (c : Char),
    (e.key (.char c) hgt).2 = true ∧
    (e.key .backspace hgt).2 = true ∧
    (e.key .delete hgt).2 = true ∧
    (e.key (.alt 'j') hgt).2 = true ∧
    (e.key (.alt 'k') hgt).2 = true ∧
    (e.key .esc hgt).2 = true ∧
    (e.key .up hgt).2 = false ∧
    (e.key .down hgt).2 = false ∧
    (e.key .left hgt).2 = false ∧
    (e.key .right hgt).2 = false ∧
    (e.key .home hgt).2 = false ∧
    (e.key .endKey hgt).2 = false ∧
    (e.key .pageUp hgt).2 = false ∧
    (e.key .pageDown hgt).2 = false ∧
    (e.key (.ctrl 'a') hgt).2 = false ∧
    (e.key (.ctrl 'e') hgt).2 = false ∧
    (e.key .other hgt).2 = false := by
  intro e hgt c
  refine ⟨rfl, rfl, rfl, rfl, rfl, rfl, rfl, rfl, rfl, rfl, rfl, rfl, rfl, rfl, rfl, rfl, rfl⟩

/-! ## Claim C8: multi-cursor rendering of one line -/

/-- C8: the claim says drawing a line succeeds with no out-of-range slicing
even when two cursors have coinciding clamped columns; in the code, after
emitting the inverted cell for the first column the running position is
column + 1, and the slice for a second equal column is
line.slice(column + 1 .. column), whose start exceeds its end, a ropey
panic (modelled by none): two cursors at column 0 of the line "ab" crash
the renderer. -/
theorem C8_coincident_cursor_panic :
    Editor.draw (Editor.mk ['a','b'] [Cursor.mk 0 0, Cursor.mk 0 0]) ['a','b'] 0 = none := by
  decide

/-! ## Claim C9: save failure handling -/

/-- C9: the claim says a failed save is reported without crashing; the
code unwraps the result of File::create (and of every write and the final
sync), so any failure panics and aborts the process instead of being
surfaced: with File::create failing, the outcome is a panic for every
document and every outcome of the later calls. -/
theorem C9_save_unwrap_panics :
    ∀ (e : Editor) (writes sync : Except String Unit),
      e.save (Except.error "permission denied") writes sync =
        SaveOutcome.panicked "permission denied" := by
  intro e writes sync
  rfl

/-! ## Claim C10: movements never modify the document -/

/-- C10: every movement key arm of Editor::key leaves the rope unchanged
and only maps each cursor independently through Cursor::apply with the
corresponding Movement (Cursor::apply itself only reads the rope); the
wildcard arm leaves the whole editor unchanged. -/
theorem C10_movement_frame : ∀ (e : Editor) (hgt : Nat),
    ((e.key .up hgt).1.rope = e.rope ∧
      (e.key .up hgt).1.cursors = e.cursors.map (fun c => c.apply e.rope (.up 1))) ∧
    ((e.key .down hgt).1.rope = e.rope ∧
      (e.key .down hgt).1.cursors = e.cursors.map (fun c => c.apply e.rope (.down 1))) ∧
    ((e.key .left hgt).1.rope = e.rope ∧
      (e.key .left hgt).1.cursors = e.cursors.map (fun c => c.apply e.rope (.left 1))) ∧
    ((e.key .right hgt).1.rope = e.rope ∧
      (e.key .right hgt).1.cursors = e.cursors.map (fun c => c.apply e.rope (.right 1))) ∧
    ((e.key .home hgt).1.rope = e.rope ∧
      (e.key .home hgt).1.cursors = e.cursors.map (fun c => c.apply e.rope .docBegin)) ∧
    ((e.key .endKey hgt).1.rope = e.rope ∧
      (e.key .endKey hgt).1.cursors = e.cursors.map (fun c => c.apply e.rope .docEnd)) ∧
    ((e.key .pageUp hgt).1.rope = e.rope ∧
      (e.key .pageUp hgt).1.cursors = e.cursors.map (fun c => c.apply e.rope (.up hgt))) ∧
    ((e.key .pageDown hgt).1.rope = e.rope ∧
      (e.key .pageDown hgt).1.cursors = e.cursors.map (fun c => c.apply e.rope (.down hgt))) ∧
    ((e.key (.ctrl 'a') hgt).1.rope = e.rope ∧
      (e.key (.ctrl 'a') hgt).1.cursors = e.cursors.map (fun c => c.apply e.rope .lineBegin)) ∧
    ((e.key (.ctrl 'e') hgt).1.rope = e.rope ∧
      (e.key (.ctrl 'e') hgt).1.cursors = e.cursors.map (fun c => c.apply e.rope .lineEnd)) ∧
    (e.key .other hgt).1 = e := by
  intro e hgt
  exact ⟨⟨rfl, rfl⟩, ⟨rfl, rfl⟩, ⟨rfl, rfl⟩, ⟨rfl, rfl⟩, ⟨rfl, rfl⟩, ⟨rfl, rfl⟩,
    ⟨rfl, rfl⟩, ⟨rfl, rfl⟩, ⟨rfl, rfl⟩, ⟨rfl, rfl⟩, rfl⟩

/-! ## Claim C3: movements stay in bounds -/

lemma lines_lt_ropeLenLines (r : Rope) : lines r < ropeLenLines r := by
  simp [lines, ropeLenLines]

lemma stepLeft_line_le (r : Rope) (x : Cursor) (h : x.line ≤ lines r) :
    (stepLeft r x).line ≤ lines r := by
  unfold stepLeft
  split_ifs with h1 h2
  · exact h
  · exact le_trans (Nat.sub_le _ _) h
  · exact h

lemma stepRight_line_le (r : Rope) (x : Cursor) (h : x.line ≤ lines r) :
    (stepRight r x).line ≤ lines r := by
  unfold stepRight
  split_ifs with h1 h2
  · exact h
  · exact h2
  · exact h

lemma iter_stepLeft_line_le (r : Rope) (n : Nat) (x : Cursor) (h : x.line ≤ lines r) :
    ((stepLeft r)^[n] x).line ≤ lines r := by
  induction n generalizing x with
  | zero => simpa using h
  | succ n ih =>
      rw [Function.iterate_succ_apply]
      exact ih _ (stepLeft_line_le r x h)

lemma iter_stepRight_line_le (r : Rope) (n : Nat) (x : Cursor) (h : x.line ≤ lines r) :
    ((stepRight r)^[n] x).line ≤ lines r := by
  induction n generalizing x with
  | zero => simpa using h
  | succ n ih =>
      rw [Function.iterate_succ_apply]
      exact ih _ (stepRight_line_le r x h)

lemma apply_line_le (c : Cursor) (r : Rope) (m : Movement) (h : c.line ≤ lines r) :
    (c.apply r m).line ≤ lines r := by
  cases m with
  | up n => simp only [Cursor.apply]; exact le_trans (Nat.sub_le _ _) h
  | down n => simp only [Cursor.apply]; split_ifs <;> omega
  | left n => exact iter_stepLeft_line_le r n _ (by simpa using h)
  | right n => exact iter_stepRight_line_le r n _ (by simpa using h)
  | docBegin => simp [Cursor.apply]
  | docEnd => simp [Cursor.apply]
  | lineBegin =>
      simp only [Cursor.apply]
      by_cases hc : c.col = 0
      · simp only [if_pos hc]
        exact le_trans (Nat.sub_le _ _) h
      · simp only [if_neg hc]
        exact h
  | lineEnd =>
      simp only [Cursor.apply]
      by_cases hc : c.columnsAt r ≤ c.col
      · simp only [if_pos hc]
        by_cases h2 : lines r ≤ c.line + 1
        · simp [if_pos h2]
        · simp [if_neg h2]
          omega
      · simp only [if_neg hc]
        exact h
  | goto l co => simp [Cursor.apply]
  | gotoLine l => simp [Cursor.apply]
  | gotoCol co => simpa [Cursor.apply] using h

/-- C3: from any cursor on a valid line, after any Movement the line index
satisfies 0 ≤ line < lineCount() and the clamped column read-back is at
most the column count of the landing line; Down saturates at the last line
index and Up at line 0 (covered by the Movement cases of the proof). -/
theorem C3_apply_in_bounds (c : Cursor) (r : Rope) (m : Movement)
    (h : c.line ≤ lines r) :
    0 ≤ (c.apply r m).line ∧ (c.apply r m).line < ropeLenLines r ∧
      (c.apply r m).colClamped r ≤ columns (ropeLine r (c.apply r m).line) := by
  refine ⟨Nat.zero_le _, ?_, ?_⟩
  · have h1 := apply_line_le c r m h
    have h2 := lines_lt_ropeLenLines r
    omega
  · exact min_le_right _ _

/-- C3 witness: document "ab\ncd", cursor (0,0), Movement Down(9). -/
theorem C3_apply_in_bounds_witness :
    (Cursor.mk 0 0).line ≤ lines ['a','b','\n','c','d'] ∧
    (0 ≤ ((Cursor.mk 0 0).apply ['a','b','\n','c','d'] (.down 9)).line ∧
      ((Cursor.mk 0 0).apply ['a','b','\n','c','d'] (.down 9)).line <
        ropeLenLines ['a','b','\n','c','d'] ∧
      ((Cursor.mk 0 0).apply ['a','b','\n','c','d'] (.down 9)).colClamped
          ['a','b','\n','c','d'] ≤
        columns (ropeLine ['a','b','\n','c','d']
          ((Cursor.mk 0 0).apply ['a','b','\n','c','d'] (.down 9)).line)) :=
  ⟨by decide, C3_apply_in_bounds (Cursor.mk 0 0) ['a','b','\n','c','d'] (.down 9) (by decide)⟩

/-! ## Claim C4: Left and Right semantics -/

/-- C4: Left(n) and Right(n) first replace the stored column by its
clamped value and then step once per count: a step left from a positive
column decrements it; from column 0 with a preceding line it lands at the
end column of that line; at document start motion stops for any count.
Right is symmetric: it wraps past the last column to column 0 of the next
line and stops at document end. The concrete scenario holds: in "ab\ncd" a
cursor at (1,0) lands at (0,2) after Left(1). -/
theorem C4_horizontal_movement :
    ((Cursor.mk 1 0).apply ['a','b','\n','c','d'] (.left 1) = Cursor.mk 0 2) ∧
    (∀ (r : Rope) (c : Cursor), 0 < c.colClamped r →
      c.apply r (.left 1) = Cursor.mk c.line (c.colClamped r - 1)) ∧
    (∀ (r : Rope) (c : Cursor), c.colClamped r = 0 → 0 < c.line →
      c.apply r (.left 1) = Cursor.mk (c.line - 1) (columns (ropeLine r (c.line - 1)))) ∧
    (∀ (r : Rope) (c : Cursor) (n : Nat), c.line = 0 → c.colClamped r = 0 →
      c.apply r (.left n) = Cursor.mk 0 0) ∧
    (∀ (r : Rope) (c : Cursor), c.colClamped r < columns (ropeLine r c.line) →
      c.apply r (.right 1) = Cursor.mk c.line (c.colClamped r + 1)) ∧
    (∀ (r : Rope) (c : Cursor), c.colClamped r = columns (ropeLine r c.line) →
      c.line < lines r → c.apply r (.right 1) = Cursor.mk (c.line + 1) 0) ∧
    (∀ (r : Rope) (c : Cursor) (n : Nat), c.line = lines r →
      c.colClamped r = columns (ropeLine r c.line) →
      c.apply r (.right n) = Cursor.mk c.line (c.colClamped r)) := by
  refine ⟨by decide, ?_, ?_, ?_, ?_, ?_, ?_⟩
  · intro r c h
    simp [Cursor.apply, stepLeft, Cursor.columnsAt, h]
  · intro r c hc hl
    simp [Cursor.apply, stepLeft, Cursor.columnsAt, hc, hl]
  · intro r c n h0 hc
    have hx : ({ c with col := c.colClamped r } : Cursor) = Cursor.mk 0 0 := by
      cases c; simp_all
    simp only [Cursor.apply, hx]
    exact Function.iterate_fixed (by simp [stepLeft]) n
  · intro r c h
    simp [Cursor.apply, stepRight, Cursor.colClamped, Cursor.columnsAt] at h ⊢
    simp [h]
  · intro r c hc hl
    simp [Cursor.apply, stepRight, Cursor.columnsAt, hc, hl]
  · intro r c n h1 h2
    simp only [Cursor.apply]
    have hfix : stepRight r { c with col := c.colClamped r } = { c with col := c.colClamped r } := by
      simp [stepRight, Cursor.columnsAt, h1, h2]
    rw [Function.iterate_fixed hfix n]

/-- C4 witness: document "ab\ncd", cursor (0,2) has positive clamped
column, and Left(1) decrements it. -/
theorem C4_horizontal_movement_witness :
    0 < (Cursor.mk 0 2).colClamped ['a','b','\n','c','d'] ∧
    (Cursor.mk 0 2).apply ['a','b','\n','c','d'] (.left 1) =
      Cursor.mk (Cursor.mk 0 2).line ((Cursor.mk 0 2).colClamped ['a','b','\n','c','d'] - 1) :=
  ⟨by decide, C4_horizontal_movement.2.1 ['a','b','\n','c','d'] (Cursor.mk 0 2) (by decide)⟩

/-! ## Claim C5: viewport invariant after update -/

/-- C5: after TermRenderer::update, the primary cursor line lies in
[top_line, top_line + height) and its clamped column lies in
[top_col, top_col + width), for every viewport with positive height and
width, every editor state and every draw flag. -/
theorem C5_viewport_invariant (tr : TermRenderer) (e : Editor) (d : Bool)
    (hh : 1 ≤ tr.height) (hw : 1 ≤ tr.width) :
    ((tr.update e d).1.y ≤ e.line ∧ e.line < (tr.update e d).1.y + (tr.update e d).1.height) ∧
    ((tr.update e d).1.x ≤ e.col ∧ e.col < (tr.update e d).1.x + (tr.update e d).1.width) := by
  simp only [TermRenderer.update]
  split_ifs <;> simp_all <;> omega

/-- A concrete viewport used by the C5 witness. -/
def trEx : TermRenderer := TermRenderer.mk 0 0 5 7

/-- A concrete editor state used by the C5 witness: document "ab\ncd" with
primary cursor (1,9), whose clamped column is 2. -/
def edEx : Editor := Editor.mk ['a','b','\n','c','d'] [Cursor.mk 1 9]

/-- C5 witness: viewport (0,0) of size 5 by 7 over "ab\ncd" with primary
cursor (1,9). -/
theorem C5_viewport_invariant_witness :
    1 ≤ trEx.height ∧ 1 ≤ trEx.width ∧
    (((trEx.update edEx false).1.y ≤ edEx.line ∧
        edEx.line < (trEx.update edEx false).1.y + (trEx.update edEx false).1.height) ∧
      ((trEx.update edEx false).1.x ≤ edEx.col ∧
        edEx.col < (trEx.update edEx false).1.x + (trEx.update edEx false).1.width)) :=
  ⟨by decide, by decide, C5_viewport_invariant trEx edEx false (by decide) (by decide)⟩

/-! ## Claim C6: Up then Down round trip -/

/-- C6 counterexample: in the five-line document "a\nb\nc\nd\ne", a cursor
on line 1 moved Up(3) saturates at line 0, and Down(3) then lands on line
3, not the original line 1. -/
theorem C6_counterexample :
    ¬ ((((Cursor.mk 1 0).apply ['a','\n','b','\n','c','\n','d','\n','e'] (.up 3)).apply
        ['a','\n','b','\n','c','\n','d','\n','e'] (.down 3)).line = 1) := by
  decide

/-- C6 amended: when the count does not overshoot the top of the document
(n at most the cursor line) and the cursor line is valid, Up(n) then
Down(n) restores the cursor exactly: same line and same stored column,
hence the original column whenever the original line's length is
unchanged. -/
theorem C6_up_down_roundtrip (r : Rope) (c : Cursor) (n : Nat)
    (h1 : n ≤ c.line) (h2 : c.line ≤ lines r) :
    (c.apply r (.up n)).apply r (.down n) = c := by
  cases c with
  | mk l co =>
      have h1a : n ≤ l := h1
      have h2a : l ≤ lines r := h2
      simp only [Cursor.apply, Cursor.mk.injEq]
      refine ⟨?_, trivial⟩
      split_ifs with h3 <;> omega

/-- C6 witness: document "a\nb\nc", cursor (2,1), count 2. -/
theorem C6_up_down_roundtrip_witness :
    2 ≤ (Cursor.mk 2 1).line ∧ (Cursor.mk 2 1).line ≤ lines ['a','\n','b','\n','c'] ∧
    ((Cursor.mk 2 1).apply ['a','\n','b','\n','c'] (.up 2)).apply ['a','\n','b','\n','c'] (.down 2) =
      Cursor.mk 2 1 :=
  ⟨by decide, by decide,
    C6_up_down_roundtrip ['a','\n','b','\n','c'] (Cursor.mk 2 1) 2 (by decide) (by decide)⟩

/-! ## Claim C7: helper lemmas about the rope model -/

lemma countNl_append (a b : List Char) : countNl (a ++ b) = countNl a + countNl b := by
  induction a with
  | nil => simp [countNl]
  | cons c t ih => simp [countNl, ih]; omega

lemma lines_eq_countNl (r : Rope) : lines r = countNl r := by
  simp [lines, ropeLenLines]

lemma lines_cons (a : Char) (t : Rope) :
    lines (a :: t) = (if a = '\n' then 1 else 0) + lines t := by
  rw [lines_eq_countNl, lines_eq_countNl]
  rfl

lemma line_to_char_zero (r : Rope) : line_to_char r 0 = 0 := by
  cases r <;> rfl

lemma line_to_char_cons (a : Char) (t : Rope) (i : Nat) :
    line_to_char (a :: t) (i + 1)
      = 1 + (if a = '\n' then line_to_char t i else line_to_char t (i + 1)) := rfl

lemma ropeLine_cons_zero (a : Char) (t : Rope) :
    ropeLine (a :: t) 0 = if a = '\n' then ['\n'] else a :: ropeLine t 0 := rfl

lemma ropeLine_cons_succ (a : Char) (t : Rope) (i : Nat) :
    ropeLine (a :: t) (i + 1) = if a = '\n' then ropeLine t i else ropeLine t (i + 1) := rfl

lemma insert_char_cons (a : Char) (t : Rope) (p : Nat) (c : Char) :
    insert_char (a :: t) (p + 1) c = a :: insert_char t p c := by
  simp [insert_char]

lemma insert_char_zero (r : Rope) (c : Char) : insert_char r 0 c = c :: r := by
  simp [insert_char]

lemma countNl_insert_char (r : Rope) (p : Nat) (c : Char) :
    countNl (insert_char r p c) = countNl r + (if c = '\n' then 1 else 0) := by
  have h : countNl (r.take p) + countNl (r.drop p) = countNl r := by
    rw [← countNl_append, List.take_append_drop]
  have h2 : countNl (insert_char r p c)
      = countNl (r.take p) + ((if c = '\n' then 1 else 0) + countNl (r.drop p)) := by
    simp only [insert_char, countNl_append, countNl]
  omega

lemma lines_insert_char (r : Rope) (p : Nat) (c : Char) :
    lines (insert_char r p c) = lines r + (if c = '\n' then 1 else 0) := by
  simp [lines_eq_countNl, countNl_insert_char]

lemma columns_le_length (l : List Char) : columns l ≤ l.length := by
  unfold columns
  split_ifs <;> omega

lemma getLast?_cons_of_ne_nil (a : Char) (t : List Char) (h : t ≠ []) :
    (a :: t).getLast? = t.getLast? := by
  cases t with
  | nil => exact absurd rfl h
  | cons b bs => exact List.getLast?_cons_cons

lemma columns_cons (a : Char) (L : List Char) (h : a ≠ '\n' ∨ L ≠ []) :
    columns (a :: L) = columns L + 1 := by
  cases L with
  | nil =>
      have ha : a ≠ '\n' := by tauto
      simp [columns, ha]
  | cons b bs =>
      unfold columns
      rw [List.getLast?_cons_cons]
      split_ifs <;> simp

lemma getLast?_drop_of_lt (l : List Char) (j : Nat) (h : j < l.length) :
    (l.drop j).getLast? = l.getLast? := by
  have hne : l.drop j ≠ [] := by
    intro hnil
    have hlen := congrArg List.length hnil
    simp at hlen
    omega
  conv_rhs => rw [← List.take_append_drop j l]
  rw [List.getLast?_append_of_ne_nil _ hne]

lemma columns_insert_ne (l : List Char) (j : Nat) (c : Char) (hc : c ≠ '\n')
    (hj : j ≤ columns l) :
    columns (l.take j ++ c :: l.drop j) = columns l + 1 := by
  by_cases hl : l.getLast? = some '\n'
  · have hlen : 0 < l.length := by
      cases l
      · simp at hl
      · simp
    have hjl : j < l.length := by
      unfold columns at hj
      rw [if_pos hl] at hj
      omega
    have hdrop : l.drop j ≠ [] := by
      intro hnil
      have hlen2 := congrArg List.length hnil
      simp at hlen2
      omega
    unfold columns
    rw [List.getLast?_append_cons, getLast?_cons_of_ne_nil _ _ hdrop,
        getLast?_drop_of_lt _ _ hjl, if_pos hl, if_pos hl]
    simp only [List.length_append, List.length_take, List.length_cons, List.length_drop]
    omega
  · by_cases hjl : j < l.length
    · have hdrop : l.drop j ≠ [] := by
        intro hnil
        have hlen2 := congrArg List.length hnil
        simp at hlen2
        omega
      unfold columns
      rw [List.getLast?_append_cons, getLast?_cons_of_ne_nil _ _ hdrop,
          getLast?_drop_of_lt _ _ hjl, if_neg hl, if_neg hl]
      simp only [List.length_append, List.length_take, List.length_cons, List.length_drop]
      omega
    · have hj' : j = l.length := by
        unfold columns at hj
        rw [if_neg hl] at hj
        omega
      subst hj'
      unfold columns
      rw [List.take_length, List.drop_length, List.getLast?_append_cons, if_neg hl]
      simp [hc]

lemma columns_take_nl (l : List Char) (j : Nat) (hj : j ≤ l.length) :
    columns (l.take j ++ ['\n']) = j := by
  unfold columns
  rw [List.getLast?_append_cons]
  simp [List.length_append, List.length_take]
  omega

lemma line_to_char_insert (c : Char) :
    ∀ (r : Rope) (i p : Nat), i ≤ lines r → line_to_char r i ≤ p →
      line_to_char (insert_char r p c) i = line_to_char r i := by
  intro r
  induction r with
  | nil =>
      intro i p hi _
      rw [lines_eq_countNl] at hi
      simp only [countNl] at hi
      have hi0 : i = 0 := by omega
      subst hi0
      rw [line_to_char_zero, line_to_char_zero]
  | cons a t ih =>
      intro i p hi hp
      cases i with
      | zero => rw [line_to_char_zero, line_to_char_zero]
      | succ i =>
          rw [line_to_char_cons] at hp
          rw [lines_cons] at hi
          by_cases ha : a = '\n'
          · rw [if_pos ha] at hp hi
            obtain ⟨q, rfl⟩ : ∃ q, p = q + 1 := ⟨p - 1, by omega⟩
            rw [insert_char_cons]
            simp only [line_to_char_cons, if_pos ha]
            rw [ih i q (by omega) (by omega)]
          · rw [if_neg ha] at hp hi
            obtain ⟨q, rfl⟩ : ∃ q, p = q + 1 := ⟨p - 1, by omega⟩
            rw [insert_char_cons]
            simp only [line_to_char_cons, if_neg ha]
            rw [ih (i + 1) q (by omega) (by omega)]

lemma ropeLine_insert_ne (c : Char) (hc : c ≠ '\n') :
    ∀ (r : Rope) (i j : Nat), i ≤ lines r → j ≤ columns (ropeLine r i) →
      ropeLine (insert_char r (line_to_char r i + j) c) i
        = (ropeLine r i).take j ++ c :: (ropeLine r i).drop j := by
  intro r
  induction r with
  | nil =>
      intro i j hi hj
      rw [lines_eq_countNl] at hi
      simp only [countNl] at hi
      have hi0 : i = 0 := by omega
      subst hi0
      have hj0 : j = 0 := by
        simp only [ropeLine, columns, List.getLast?_nil] at hj
        simp at hj
        omega
      subst hj0
      simp [line_to_char_zero, insert_char, ropeLine, hc]
  | cons a t ih =>
      intro i j hi hj
      cases i with
      | zero =>
          by_cases ha : a = '\n'
          · rw [ropeLine_cons_zero, if_pos ha] at hj
            have hj0 : j = 0 := by
              simp [columns] at hj
              omega
            subst hj0
            rw [line_to_char_zero, Nat.add_zero, insert_char_zero]
            simp only [ropeLine_cons_zero, if_neg hc, if_pos ha]
            simp
          · cases j with
            | zero =>
                rw [line_to_char_zero, Nat.add_zero, insert_char_zero]
                simp only [ropeLine_cons_zero, if_neg hc, if_neg ha]
                simp
            | succ j =>
                have hline : ropeLine (a :: t) 0 = a :: ropeLine t 0 := by
                  rw [ropeLine_cons_zero, if_neg ha]
                rw [hline] at hj
                have hj' : j ≤ columns (ropeLine t 0) := by
                  by_cases h0 : ropeLine t 0 = []
                  · rw [h0] at hj ⊢
                    simp [columns, ha] at hj
                    simp [columns]
                    omega
                  · rw [columns_cons a _ (Or.inr h0)] at hj
                    omega
                have key := ih 0 j (Nat.zero_le _) hj'
                rw [line_to_char_zero, Nat.zero_add] at key
                rw [line_to_char_zero, Nat.zero_add, insert_char_cons]
                rw [hline]
                simp only [ropeLine_cons_zero, if_neg ha]
                rw [key]
                simp
      | succ i =>
          rw [lines_cons] at hi
          by_cases ha : a = '\n'
          · rw [if_pos ha] at hi
            rw [ropeLine_cons_succ, if_pos ha] at hj
            have hp : line_to_char (a :: t) (i + 1) + j = (line_to_char t i + j) + 1 := by
              rw [line_to_char_cons, if_pos ha]
              omega
            rw [hp, insert_char_cons]
            rw [ropeLine_cons_succ, if_pos ha]
            rw [ropeLine_cons_succ, if_pos ha]
            exact ih i j (by omega) hj
          · rw [if_neg ha] at hi
            rw [ropeLine_cons_succ, if_neg ha] at hj
            have hp : line_to_char (a :: t) (i + 1) + j = (line_to_char t (i + 1) + j) + 1 := by
              rw [line_to_char_cons, if_neg ha]
              omega
            rw [hp, insert_char_cons]
            rw [ropeLine_cons_succ, if_neg ha]
            rw [ropeLine_cons_succ, if_neg ha]
            exact ih (i + 1) j (by omega) hj

lemma insert_nl_spec :
    ∀ (r : Rope) (i j : Nat), i ≤ lines r → j ≤ columns (ropeLine r i) →
      ropeLine (insert_char r (line_to_char r i + j) '\n') i = (ropeLine r i).take j ++ ['\n'] ∧
      ropeLine (insert_char r (line_to_char r i + j) '\n') (i + 1) = (ropeLine r i).drop j ∧
      line_to_char (insert_char r (line_to_char r i + j) '\n') (i + 1)
        = line_to_char r i + j + 1 := by
  intro r
  induction r with
  | nil =>
      intro i j hi hj
      rw [lines_eq_countNl] at hi
      simp only [countNl] at hi
      have hi0 : i = 0 := by omega
      subst hi0
      have hj0 : j = 0 := by
        simp only [ropeLine, columns, List.getLast?_nil] at hj
        simp at hj
        omega
      subst hj0
      exact ⟨by decide, by decide, by decide⟩
  | cons a t ih =>
      intro i j hi hj
      cases i with
      | zero =>
          by_cases ha : a = '\n'
          · rw [ropeLine_cons_zero, if_pos ha] at hj
            have hj0 : j = 0 := by
              simp [columns] at hj
              omega
            subst hj0
            rw [line_to_char_zero, Nat.add_zero, insert_char_zero]
            refine ⟨?_, ?_, ?_⟩
            · simp only [ropeLine_cons_zero, if_pos rfl, if_pos ha]
              simp
            · simp only [ropeLine_cons_succ, if_pos rfl, ropeLine_cons_zero, if_pos ha]
              simp
            · simp only [line_to_char_cons, if_pos rfl, line_to_char_zero]
              simp
          · cases j with
            | zero =>
                rw [line_to_char_zero, Nat.add_zero, insert_char_zero]
                refine ⟨?_, ?_, ?_⟩
                · simp only [ropeLine_cons_zero, if_pos rfl]
                  simp
                · simp only [ropeLine_cons_succ, if_pos rfl]
                  simp
                · simp only [line_to_char_cons, if_pos rfl, line_to_char_zero]
                  simp
            | succ j =>
                have hline : ropeLine (a :: t) 0 = a :: ropeLine t 0 := by
                  rw [ropeLine_cons_zero, if_neg ha]
                rw [hline] at hj
                have hj' : j ≤ columns (ropeLine t 0) := by
                  by_cases h0 : ropeLine t 0 = []
                  · rw [h0] at hj ⊢
                    simp [columns, ha] at hj
                    simp [columns]
                    omega
                  · rw [columns_cons a _ (Or.inr h0)] at hj
                    omega
                obtain ⟨ka, kb, kc⟩ := ih 0 j (Nat.zero_le _) hj'
                rw [line_to_char_zero, Nat.zero_add] at ka kb kc
                rw [line_to_char_zero, Nat.zero_add, insert_char_cons]
                refine ⟨?_, ?_, ?_⟩
                · rw [ropeLine_cons_zero, if_neg ha, ka, hline]
                  simp
                · rw [ropeLine_cons_succ, if_neg ha, kb, hline]
                  simp
                · rw [line_to_char_cons, if_neg ha, kc]
                  omega
      | succ i =>
          rw [lines_cons] at hi
          by_cases ha : a = '\n'
          · rw [if_pos ha] at hi
            rw [ropeLine_cons_succ, if_pos ha] at hj
            have hp : line_to_char (a :: t) (i + 1) + j = (line_to_char t i + j) + 1 := by
              rw [line_to_char_cons, if_pos ha]
              omega
            obtain ⟨ka, kb, kc⟩ := ih i j (by omega) hj
            rw [hp, insert_char_cons]
            refine ⟨?_, ?_, ?_⟩
            · rw [ropeLine_cons_succ, if_pos ha]
              rw [ropeLine_cons_succ, if_pos ha]
              exact ka
            · rw [ropeLine_cons_succ, if_pos ha]
              rw [ropeLine_cons_succ, if_pos ha]
              exact kb
            · rw [line_to_char_cons, if_pos ha, kc]
              omega
          · rw [if_neg ha] at hi
            rw [ropeLine_cons_succ, if_neg ha] at hj
            have hp : line_to_char (a :: t) (i + 1) + j = (line_to_char t (i + 1) + j) + 1 := by
              rw [line_to_char_cons, if_neg ha]
              omega
            obtain ⟨ka, kb, kc⟩ := ih (i + 1) j (by omega) hj
            rw [hp, insert_char_cons]
            refine ⟨?_, ?_, ?_⟩
            · rw [ropeLine_cons_succ, if_neg ha]
              rw [ropeLine_cons_succ, if_neg ha]
              exact ka
            · rw [ropeLine_cons_succ, if_neg ha]
              rw [ropeLine_cons_succ, if_neg ha]
              exact kb
            · rw [line_to_char_cons, if_neg ha, kc]
              omega

lemma pos_le_length :
    ∀ (r : Rope) (i : Nat), i ≤ lines r →
      line_to_char r i + columns (ropeLine r i) ≤ r.length := by
  intro r
  induction r with
  | nil =>
      intro i hi
      rw [lines_eq_countNl] at hi
      simp only [countNl] at hi
      have hi0 : i = 0 := by omega
      subst hi0
      simp [line_to_char_zero, ropeLine, columns]
  | cons a t ih =>
      intro i hi
      cases i with
      | zero =>
          rw [line_to_char_zero, Nat.zero_add]
          by_cases ha : a = '\n'
          · rw [ropeLine_cons_zero, if_pos ha]
            simp [columns]
          · rw [ropeLine_cons_zero, if_neg ha]
            by_cases h0 : ropeLine t 0 = []
            · rw [h0]
              simp [columns, ha]
            · rw [columns_cons a _ (Or.inr h0)]
              have hrec := ih 0 (Nat.zero_le _)
              rw [line_to_char_zero, Nat.zero_add] at hrec
              simp only [List.length_cons]
              omega
      | succ i =>
          rw [lines_cons] at hi
          by_cases ha : a = '\n'
          · rw [if_pos ha] at hi
            rw [line_to_char_cons, if_pos ha, ropeLine_cons_succ, if_pos ha]
            have hrec := ih i (by omega)
            simp only [List.length_cons]
            omega
          · rw [if_neg ha] at hi
            rw [line_to_char_cons, if_neg ha, ropeLine_cons_succ, if_neg ha]
            have hrec := ih (i + 1) (by omega)
            simp only [List.length_cons]
            omega

lemma remove_insert :
    ∀ (r : Rope) (p : Nat) (c : Char), p ≤ r.length →
      removeAt (insert_char r p c) p = r := by
  intro r
  induction r with
  | nil =>
      intro p c hp
      have hp0 : p = 0 := by
        simp only [List.length_nil] at hp
        omega
      subst hp0
      simp [insert_char, removeAt]
  | cons a t ih =>
      intro p c hp
      cases p with
      | zero => simp [insert_char, removeAt]
      | succ p =>
          rw [insert_char_cons]
          have h2 : removeAt (a :: insert_char t p c) (p + 1)
              = a :: removeAt (insert_char t p c) p := by
            simp [removeAt]
          simp only [List.length_cons] at hp
          rw [h2, ih p c (by omega)]

lemma columns_ropeLine_insert_ne (r : Rope) (i j : Nat) (c : Char) (hc : c ≠ '\n')
    (hi : i ≤ lines r) (hj : j ≤ columns (ropeLine r i)) :
    columns (ropeLine (insert_char r (line_to_char r i + j) c) i)
      = columns (ropeLine r i) + 1 := by
  rw [ropeLine_insert_ne c hc r i j hi hj]
  exact columns_insert_ne _ _ _ hc hj

lemma columns_ropeLine_insert_nl (r : Rope) (i j : Nat)
    (hi : i ≤ lines r) (hj : j ≤ columns (ropeLine r i)) :
    columns (ropeLine (insert_char r (line_to_char r i + j) '\n') i) = j := by
  rw [(insert_nl_spec r i j hi hj).1]
  exact columns_take_nl _ _ (le_trans hj (columns_le_length _))

lemma key_char_ne (r : Rope) (i j : Nat) (c : Char) (hgt : Nat) (hc : c ≠ '\n')
    (hi : i ≤ lines r) (hj : j ≤ columns (ropeLine r i)) :
    ((Editor.mk r [Cursor.mk i j]).key (.char c) hgt).1
      = Editor.mk (insert_char r (line_to_char r i + j) c) [Cursor.mk i (j + 1)] := by
  have hmin : min j (columns (ropeLine r i)) = j := Nat.min_eq_left hj
  have hcols := columns_ropeLine_insert_ne r i j c hc hi hj
  have hpos : (Cursor.mk i j).pos r = line_to_char r i + j := by
    show line_to_char r i + min j (columns (ropeLine r i)) = _
    rw [hmin]
  have hclamp : (Cursor.mk i j).colClamped (insert_char r (line_to_char r i + j) c) = j := by
    show min j (columns (ropeLine (insert_char r (line_to_char r i + j) c) i)) = j
    rw [hcols]
    omega
  have hstep : stepRight (insert_char r (line_to_char r i + j) c) (Cursor.mk i j)
      = Cursor.mk i (j + 1) := by
    have hcond : (Cursor.mk i j).col < (Cursor.mk i j).columnsAt (insert_char r (line_to_char r i + j) c) := by
      show j < columns (ropeLine (insert_char r (line_to_char r i + j) c) i)
      rw [hcols]
      omega
    unfold stepRight
    rw [if_pos hcond]
  have happly : (Cursor.mk i j).apply (insert_char r (line_to_char r i + j) c) (.right 1)
      = Cursor.mk i (j + 1) := by
    show (stepRight (insert_char r (line_to_char r i + j) c))^[1]
        { Cursor.mk i j with col := (Cursor.mk i j).colClamped (insert_char r (line_to_char r i + j) c) } = _
    rw [Function.iterate_one]
    have hrec : ({ Cursor.mk i j with
        col := (Cursor.mk i j).colClamped (insert_char r (line_to_char r i + j) c) } : Cursor)
        = Cursor.mk i j := by
      rw [hclamp]
    rw [hrec, hstep]
  show Editor.mk (insert_char r ((Cursor.mk i j).pos r) c)
      [(Cursor.mk i j).apply (insert_char r ((Cursor.mk i j).pos r) c) (.right 1)] = _
  rw [hpos, happly]

lemma key_char_nl (r : Rope) (i j : Nat) (hgt : Nat)
    (hi : i ≤ lines r) (hj : j ≤ columns (ropeLine r i)) :
    ((Editor.mk r [Cursor.mk i j]).key (.char '\n') hgt).1
      = Editor.mk (insert_char r (line_to_char r i + j) '\n') [Cursor.mk (i + 1) 0] := by
  have hmin : min j (columns (ropeLine r i)) = j := Nat.min_eq_left hj
  have hcols := columns_ropeLine_insert_nl r i j hi hj
  have hlines : lines (insert_char r (line_to_char r i + j) '\n') = lines r + 1 := by
    rw [lines_insert_char]
    simp
  have hpos : (Cursor.mk i j).pos r = line_to_char r i + j := by
    show line_to_char r i + min j (columns (ropeLine r i)) = _
    rw [hmin]
  have hclamp : (Cursor.mk i j).colClamped (insert_char r (line_to_char r i + j) '\n') = j := by
    show min j (columns (ropeLine (insert_char r (line_to_char r i + j) '\n') i)) = j
    rw [hcols]
    omega
  have hstep : stepRight (insert_char r (line_to_char r i + j) '\n') (Cursor.mk i j)
      = Cursor.mk (i + 1) 0 := by
    have hc1 : ¬ (Cursor.mk i j).col < (Cursor.mk i j).columnsAt (insert_char r (line_to_char r i + j) '\n') := by
      show ¬ j < columns (ropeLine (insert_char r (line_to_char r i + j) '\n') i)
      rw [hcols]
      omega
    have hc2 : (Cursor.mk i j).line < lines (insert_char r (line_to_char r i + j) '\n') := by
      show i < lines (insert_char r (line_to_char r i + j) '\n')
      rw [hlines]
      omega
    unfold stepRight
    rw [if_neg hc1, if_pos hc2]
  have happly : (Cursor.mk i j).apply (insert_char r (line_to_char r i + j) '\n') (.right 1)
      = Cursor.mk (i + 1) 0 := by
    show (stepRight (insert_char r (line_to_char r i + j) '\n'))^[1]
        { Cursor.mk i j with col := (Cursor.mk i j).colClamped (insert_char r (line_to_char r i + j) '\n') } = _
    rw [Function.iterate_one]
    have hrec : ({ Cursor.mk i j with
        col := (Cursor.mk i j).colClamped (insert_char r (line_to_char r i + j) '\n') } : Cursor)
        = Cursor.mk i j := by
      rw [hclamp]
    rw [hrec, hstep]
  show Editor.mk (insert_char r ((Cursor.mk i j).pos r) '\n')
      [(Cursor.mk i j).apply (insert_char r ((Cursor.mk i j).pos r) '\n') (.right 1)] = _
  rw [hpos, happly]

lemma key_backspace_ne (r : Rope) (i j : Nat) (c : Char) (hgt : Nat) (hc : c ≠ '\n')
    (hi : i ≤ lines r) (hj : j ≤ columns (ropeLine r i)) :
    ((Editor.mk (insert_char r (line_to_char r i + j) c) [Cursor.mk i (j + 1)]).key .backspace hgt).1
      = Editor.mk r [Cursor.mk i j] := by
  have hltc : line_to_char (insert_char r (line_to_char r i + j) c) i = line_to_char r i :=
    line_to_char_insert c r i _ hi (Nat.le_add_right _ _)
  have hcols := columns_ropeLine_insert_ne r i j c hc hi hj
  have hclamp1 : (Cursor.mk i (j + 1)).colClamped (insert_char r (line_to_char r i + j) c) = j + 1 := by
    show min (j + 1) (columns (ropeLine (insert_char r (line_to_char r i + j) c) i)) = j + 1
    rw [hcols]
    omega
  have hpos1 : (Cursor.mk i (j + 1)).pos (insert_char r (line_to_char r i + j) c)
      = line_to_char r i + j + 1 := by
    show line_to_char (insert_char r (line_to_char r i + j) c) i
        + (Cursor.mk i (j + 1)).colClamped (insert_char r (line_to_char r i + j) c) = _
    rw [hltc, hclamp1]
    omega
  have hstepl : stepLeft (insert_char r (line_to_char r i + j) c) (Cursor.mk i (j + 1))
      = Cursor.mk i j := by
    have hcond : 0 < (Cursor.mk i (j + 1)).col := by
      show 0 < j + 1
      omega
    unfold stepLeft
    rw [if_pos hcond]
    exact rfl
  have happly : (Cursor.mk i (j + 1)).apply (insert_char r (line_to_char r i + j) c) (.left 1)
      = Cursor.mk i j := by
    show (stepLeft (insert_char r (line_to_char r i + j) c))^[1]
        { Cursor.mk i (j + 1) with
          col := (Cursor.mk i (j + 1)).colClamped (insert_char r (line_to_char r i + j) c) } = _
    rw [Function.iterate_one]
    have hrec : ({ Cursor.mk i (j + 1) with
        col := (Cursor.mk i (j + 1)).colClamped (insert_char r (line_to_char r i + j) c) } : Cursor)
        = Cursor.mk i (j + 1) := by
      rw [hclamp1]
    rw [hrec, hstepl]
  have hpos2 : (Cursor.mk i j).pos (insert_char r (line_to_char r i + j) c)
      = line_to_char r i + j := by
    show line_to_char (insert_char r (line_to_char r i + j) c) i
        + min j (columns (ropeLine (insert_char r (line_to_char r i + j) c) i)) = _
    rw [hltc, hcols]
    omega
  have hrem : removeAt (insert_char r (line_to_char r i + j) c) (line_to_char r i + j) = r := by
    apply remove_insert
    have hle := pos_le_length r i hi
    omega
  have hposgt : 0 < (Cursor.mk i (j + 1)).pos (insert_char r (line_to_char r i + j) c) := by
    rw [hpos1]
    omega
  have hbs : backspaceAll [Cursor.mk i (j + 1)] (insert_char r (line_to_char r i + j) c)
      = (r, [Cursor.mk i j]) := by
    simp only [backspaceAll, if_pos hposgt, happly, hpos2, hrem]
  show Editor.mk
      (backspaceAll [Cursor.mk i (j + 1)] (insert_char r (line_to_char r i + j) c)).1
      (backspaceAll [Cursor.mk i (j + 1)] (insert_char r (line_to_char r i + j) c)).2 = _
  rw [hbs]

lemma key_backspace_nl (r : Rope) (i j : Nat) (hgt : Nat)
    (hi : i ≤ lines r) (hj : j ≤ columns (ropeLine r i)) :
    ((Editor.mk (insert_char r (line_to_char r i + j) '\n') [Cursor.mk (i + 1) 0]).key .backspace hgt).1
      = Editor.mk r [Cursor.mk i j] := by
  have hltc : line_to_char (insert_char r (line_to_char r i + j) '\n') i = line_to_char r i :=
    line_to_char_insert '\n' r i _ hi (Nat.le_add_right _ _)
  have hcols := columns_ropeLine_insert_nl r i j hi hj
  have kc := (insert_nl_spec r i j hi hj).2.2
  have hclamp : (Cursor.mk (i + 1) 0).colClamped (insert_char r (line_to_char r i + j) '\n') = 0 := by
    show min 0 (columns (ropeLine (insert_char r (line_to_char r i + j) '\n') (i + 1))) = 0
    omega
  have hpos1 : (Cursor.mk (i + 1) 0).pos (insert_char r (line_to_char r i + j) '\n')
      = line_to_char r i + j + 1 := by
    show line_to_char (insert_char r (line_to_char r i + j) '\n') (i + 1)
        + (Cursor.mk (i + 1) 0).colClamped (insert_char r (line_to_char r i + j) '\n') = _
    rw [kc, hclamp]
  have hstepl : stepLeft (insert_char r (line_to_char r i + j) '\n') (Cursor.mk (i + 1) 0)
      = Cursor.mk i j := by
    have hc1 : ¬ 0 < (Cursor.mk (i + 1) 0).col := by
      show ¬ 0 < 0
      omega
    have hc2 : 0 < (Cursor.mk (i + 1) 0).line := by
      show 0 < i + 1
      omega
    unfold stepLeft
    rw [if_neg hc1, if_pos hc2]
    show Cursor.mk i (columns (ropeLine (insert_char r (line_to_char r i + j) '\n') i)) = _
    rw [hcols]
  have happly : (Cursor.mk (i + 1) 0).apply (insert_char r (line_to_char r i + j) '\n') (.left 1)
      = Cursor.mk i j := by
    show (stepLeft (insert_char r (line_to_char r i + j) '\n'))^[1]
        { Cursor.mk (i + 1) 0 with
          col := (Cursor.mk (i + 1) 0).colClamped (insert_char r (line_to_char r i + j) '\n') } = _
    rw [Function.iterate_one]
    have hrec : ({ Cursor.mk (i + 1) 0 with
        col := (Cursor.mk (i + 1) 0).colClamped (insert_char r (line_to_char r i + j) '\n') } : Cursor)
        = Cursor.mk (i + 1) 0 := by
      rw [hclamp]
    rw [hrec, hstepl]
  have hpos2 : (Cursor.mk i j).pos (insert_char r (line_to_char r i + j) '\n')
      = line_to_char r i + j := by
    show line_to_char (insert_char r (line_to_char r i + j) '\n') i
        + min j (columns (ropeLine (insert_char r (line_to_char r i + j) '\n') i)) = _
    rw [hltc, hcols]
    omega
  have hrem : removeAt (insert_char r (line_to_char r i + j) '\n') (line_to_char r i + j) = r := by
    apply remove_insert
    have hle := pos_le_length r i hi
    omega
  have hposgt : 0 < (Cursor.mk (i + 1) 0).pos (insert_char r (line_to_char r i + j) '\n') := by
    rw [hpos1]
    omega
  have hbs : backspaceAll [Cursor.mk (i + 1) 0] (insert_char r (line_to_char r i + j) '\n')
      = (r, [Cursor.mk i j]) := by
    simp only [backspaceAll, if_pos hposgt, happly, hpos2, hrem]
  show Editor.mk
      (backspaceAll [Cursor.mk (i + 1) 0] (insert_char r (line_to_char r i + j) '\n')).1
      (backspaceAll [Cursor.mk (i + 1) 0] (insert_char r (line_to_char r i + j) '\n')).2 = _
  rw [hbs]

/-- Pressing one character key per element of cs, in order (the repeated
Key::Char dispatch of the event loop). -/
def insertKeys (hgt : Nat) (cs : List Char) (e : Editor) : Editor :=
  cs.foldl (fun ed c => (ed.key (.char c) hgt).1) e

/-- Pressing Backspace n times (the repeated Key::Backspace dispatch of
the event loop). -/
def backspaceKeys (hgt n : Nat) (e : Editor) : Editor :=
  (fun ed => (ed.key .backspace hgt).1)^[n] e

lemma backspaceKeys_succ (hgt n : Nat) (e : Editor) :
    backspaceKeys hgt (n + 1) e = ((backspaceKeys hgt n e).key .backspace hgt).1 := by
  simp [backspaceKeys, Function.iterate_succ_apply']

/-! ## Claim C7: insert then backspace round trip -/

/-- C7 counterexample: document "ab\ncd" with a single cursor at (0,5),
whose stored column exceeds the line length. One inserted character lands
at the end of line 0, Right(1) then wraps the cursor to (1,0), and the
following backspace deletes the line break instead of the inserted
character: the document becomes "abxcd", not the original "ab\ncd". -/
theorem C7_counterexample :
    ¬ ((((Editor.mk ['a','b','\n','c','d'] [Cursor.mk 0 5]).key (.char 'x') 5).1.key
          .backspace 5).1.rope
        = (Editor.mk ['a','b','\n','c','d'] [Cursor.mk 0 5]).rope) := by
  decide

/-- C7 amended: with a single cursor whose line is valid and whose stored
column does not exceed its line's column count, inserting the characters
of cs one key at a time and then pressing Backspace once per inserted
character restores the document to its prior content and the cursor to
its prior position. -/
theorem C7_insert_backspace_roundtrip (hgt : Nat) (cs : List Char) :
    ∀ (r : Rope) (i j : Nat), i ≤ lines r → j ≤ columns (ropeLine r i) →
      backspaceKeys hgt cs.length (insertKeys hgt cs (Editor.mk r [Cursor.mk i j]))
        = Editor.mk r [Cursor.mk i j] := by
  induction cs with
  | nil =>
      intro r i j hi hj
      simp [insertKeys, backspaceKeys]
  | cons c cs ih =>
      intro r i j hi hj
      have hins : insertKeys hgt (c :: cs) (Editor.mk r [Cursor.mk i j])
          = insertKeys hgt cs ((Editor.mk r [Cursor.mk i j]).key (.char c) hgt).1 := by
        simp [insertKeys]
      rw [hins, List.length_cons, backspaceKeys_succ]
      by_cases hc : c = '\n'
      · subst hc
        rw [key_char_nl r i j hgt hi hj]
        have hval1 : i + 1 ≤ lines (insert_char r (line_to_char r i + j) '\n') := by
          rw [lines_insert_char]
          simp
          omega
        rw [ih (insert_char r (line_to_char r i + j) '\n') (i + 1) 0 hval1 (Nat.zero_le _)]
        exact key_backspace_nl r i j hgt hi hj
      · rw [key_char_ne r i j c hgt hc hi hj]
        have hval1 : i ≤ lines (insert_char r (line_to_char r i + j) c) := by
          rw [lines_insert_char]
          simp [hc]
          omega
        have hval2 : j + 1 ≤ columns (ropeLine (insert_char r (line_to_char r i + j) c) i) := by
          rw [columns_ropeLine_insert_ne r i j c hc hi hj]
          omega
        rw [ih (insert_char r (line_to_char r i + j) c) i (j + 1) hval1 hval2]
        exact key_backspace_ne r i j c hgt hc hi hj

/-- C7 witness: document "ab", cursor (0,1), inserting "x" then a line
break and backspacing twice restores the state. -/
theorem C7_insert_backspace_roundtrip_witness :
    ((0 : Nat) ≤ lines ['a','b'] ∧ 1 ≤ columns (ropeLine ['a','b'] 0)) ∧
    backspaceKeys 5 (['x', '\n'] : List Char).length
        (insertKeys 5 ['x', '\n'] (Editor.mk ['a','b'] [Cursor.mk 0 1]))
      = Editor.mk ['a','b'] [Cursor.mk 0 1] :=
  ⟨⟨by decide, by decide⟩,
    C7_insert_backspace_roundtrip 5 ['x', '\n'] ['a','b'] 0 1 (by decide) (by decide)⟩

end Ted
